import Mathlib

/- Verification of the optimizer-regression tool `regress_cc.py`: a shallow
embedding of the `Optimizers` class and of `testPredicate`, together with
proofs about the specified behavior. Line numbers in the doc comments refer
to `src/regress_cc.py`. -/

/-- Python exceptions relevant to this program, as values.
`calledProcessError` and `timeoutExpired` are the `subprocess.SubprocessError`
subclasses raised by `subprocess.run(cmd, check = True, timeout = t)`; the
captured standard output and error (already decoded into lines) ride along as
the `output` field. `keyError` models `KeyError` from a dict lookup,
`fileNotFoundError` models the `OSError` raised when an executable cannot be
started, and `indexError` models the `IndexError` raised when an empty
argument vector is executed. -/
inductive PyErr where
  | calledProcessError (output : List String)
  | timeoutExpired (output : List String)
  | keyError (key : String)
  | fileNotFoundError
  | indexError
  deriving DecidableEq

deriving instance DecidableEq for Except

/-- Whether the exception is an instance of `subprocess.SubprocessError`, the
class caught at line 37 (in `fromArgs`) and at line 87 (in `regress`). -/
def PyErr.isSubprocessError : PyErr → Bool
  | .calledProcessError _ => true
  | .timeoutExpired _ => true
  | _ => false

/-- A Python `dict` with string keys and values, as an association list in
insertion order; dict construction keeps keys unique. -/
abbrev Dict := List (String × String)

/-- Python `d[k]` as an `Option`: the value of the first entry for `k`. -/
def Dict.lookup : Dict → String → Option String
  | [], _ => none
  | (k', v') :: rest, k => if k' = k then some v' else Dict.lookup rest k

/-- Python `d[k] = v`: replace the value at `k` in place if the key is
present, otherwise append a new entry (insertion order). -/
def Dict.insert : Dict → String → String → Dict
  | [], k, v => [(k, v)]
  | (k', v') :: rest, k, v =>
    if k' = k then (k, v) :: rest else (k', v') :: Dict.insert rest k v

/-- A sequence of Python dict assignments, first to last. -/
def Dict.insertAll (d : Dict) (ps : List (String × String)) : Dict :=
  ps.foldl (fun d' p => Dict.insert d' p.1 p.2) d

/-- Python `dict(pairs)`: fold the pairs into an empty dict; a later entry for
an existing key overwrites the value while keeping the first position. -/
def Dict.ofList (ps : List (String × String)) : Dict :=
  Dict.insertAll [] ps

/-- Key uniqueness, the invariant every Python dict enjoys. -/
def Dict.WF (d : Dict) : Prop := (d.map Prod.fst).Nodup

instance (d : Dict) : Decidable (Dict.WF d) := by
  unfold Dict.WF
  infer_instance

/-- Worker for `pySplit`: walk the characters, collecting the current token in
reverse; whitespace ends a token, and empty tokens are never produced. -/
def pySplitAux (cur : List Char) : List Char → List String
  | [] => if cur.isEmpty then [] else [String.mk cur.reverse]
  | c :: cs =>
    if c.isWhitespace then
      if cur.isEmpty then pySplitAux [] cs
      else String.mk cur.reverse :: pySplitAux [] cs
    else pySplitAux (c :: cur) cs

/-- Python `str.split()` with no separator argument: split on whitespace runs,
dropping empty tokens. -/
def pySplit (s : String) : List String := pySplitAux [] s.toList

/-- Python `s.startswith( pre )`. -/
def pyStartsWith (s pre : String) : Bool := pre.toList.isPrefixOf s.toList

/-- One tokenized line of the compiler report, kept only if it has exactly two
tokens and the first starts with `-f` (the filter at line 36; the Python
`len( pair ) is 2` test on small ints is `len( pair ) == 2`). -/
def keepPair : List String → Option (String × String)
  | [a, b] => if pyStartsWith a "-f" then some (a, b) else none
  | _ => none

/-- Parsing of the compiler report at line 36: whitespace-split each stdout
line, keep the well-formed optimizer rows, and build a dict from them. -/
def parseReport (lines : List String) : Dict :=
  Dict.ofList ((lines.map pySplit).filterMap keepPair)

/-- The compiler as an oracle: invoking `<cc> <args...> -Q --help=optimizers`
(line 34) either yields the decoded stdout lines, or raises
`calledProcessError` on a non-zero exit (`check = True`), or
`fileNotFoundError` when the binary cannot be started. The oracle is a plain
function, so repeated identical queries agree (a fixed, consistent compiler
report). -/
abbrev Oracle := String → List String → Except PyErr (List String)

/-- Collection of gcc optimizer configurations given a command line: the
`Optimizers` class (lines 22-43), with fields `options`, `args`, `cc`. -/
structure Optimizers where
  options : Dict
  args : List String
  cc : String
  deriving DecidableEq

/-- Lines 27-38, `Optimizers.fromArgs`: query the compiler and parse its
report. The `except subprocess.SubprocessError` clause at line 37 only
re-raises the same exception, and any other exception (for example the
`OSError` when the compiler cannot be started) is not caught at all, so every
oracle error passes through unchanged. -/
def Optimizers.fromArgs (oracle : Oracle) (args : List String) (cc : String) :
    Except PyErr Optimizers :=
  match oracle cc args with
  | Except.ok lines => Except.ok ⟨parseReport lines, args, cc⟩
  | Except.error e => Except.error e

/-- Lines 62-67 (`Optimizers.diff`), fully consumed: the pairs of the second
dict whose value differs from the first dict, in the second dict's iteration
order; looking a key up that is absent from the first dict raises `KeyError`.
The Python generator is lazy, but every consumer in this program either
drains it completely or observes only the exception, so the eager `Except`
value is observationally equivalent. -/
def Dict.diffE (self : Dict) : List (String × String) → Except PyErr (List (String × String))
  | [] => Except.ok []
  | (k, v) :: rest =>
    match Dict.lookup self k with
    | none => Except.error (PyErr.keyError k)
    | some w =>
      match Dict.diffE self rest with
      | Except.error e => Except.error e
      | Except.ok tail => Except.ok (if w ≠ v then (k, v) :: tail else tail)

/-- Line 67, `self.diff( other )`: `self.options` provides the reference
values, `other.options` provides the pairs and the iteration order. -/
def Optimizers.diff (self other : Optimizers) : Except PyErr (List (String × String)) :=
  Dict.diffE self.options other.options

/-- Python `s.replace( pat, rep, 1 )` on character lists: rewrite the leftmost
occurrence of `pat` and leave everything else untouched; if `pat` does not
occur, return the input unchanged. -/
def replaceFirstAux (pat rep : List Char) : List Char → List Char
  | [] => []
  | c :: cs =>
    if pat.isPrefixOf (c :: cs) then rep ++ (c :: cs).drop pat.length
    else c :: replaceFirstAux pat rep cs

/-- Python `s.replace( pat, rep, 1 )` for the nonempty patterns used here. -/
def pyReplaceFirst (s pat rep : String) : String :=
  String.mk (replaceFirstAux pat.toList rep.toList s.toList)

/-- The `transform` closure inside `flatten` (lines 52-58): `[enabled]` emits
the bare flag name, `[disabled]` rewrites the leftmost `-f` to `-fno-` once,
and anything else is the name concatenated with the value
(`''.join( pair )`). -/
def Optimizers.transform (pair : String × String) : String :=
  if pair.2 = "[enabled]" then pair.1
  else if pair.2 = "[disabled]" then pyReplaceFirst pair.1 "-f" "-fno-"
  else pair.1 ++ pair.2

/-- Lines 45-60, `Optimizers.flatten`: re-query the compiler for the state
implied by `args` alone, diff that implied set against this set, drop the
`[default]` entries, transform the rest, and append them to `args`. The value
returned in Python is a lazy chain, but each consumer drains it fully before
anything else happens, so the eager list (with errors short-circuiting) is
observationally equivalent. -/
def Optimizers.flatten (oracle : Oracle) (self : Optimizers) : Except PyErr (List String) :=
  match Optimizers.fromArgs oracle self.args self.cc with
  | Except.error e => Except.error e
  | Except.ok implied =>
    match Optimizers.diff implied self with
    | Except.error e => Except.error e
    | Except.ok delta =>
      Except.ok (self.args ++
        ((delta.filter fun p => decide (p.2 ≠ "[default]")).map Optimizers.transform))

/-- The external test predicate (`testOptions`) as the engine sees it: given
the flattened argument list, it either returns normally (`none`) or raises an
exception (`some e`). -/
abbrev Predicate := List String → Option PyErr

/-- The body of one trial, line 84: `testOptions( result.flatten() )`. The
flatten errors surface while the predicate drains its lazy argument, before
any predicate command runs, so both kinds of exception are raised from this
one expression. -/
def Optimizers.trial (oracle : Oracle) (pred : Predicate) (self : Optimizers) : Option PyErr :=
  match Optimizers.flatten oracle self with
  | Except.error e => some e
  | Except.ok argv => pred argv

/-- The walk of `regress` (lines 76-89) with the lazy `base.diff( reach )`
inlined. The working set's dict is the very dict object the diff's filter
reads (see `Optimizers.regress`), so each pull of the generator looks the key
up in the current working dict: a key whose current value already equals the
reach value is skipped silently, a missing key raises `KeyError` out of the
loop, and otherwise the flag is tentatively set and tried; on success the
change is kept, a `subprocess.SubprocessError` (line 87) reverts it, and any
other exception propagates with the tentative value still in place. No key is
mutated before its own pull, so each comparison still sees the original value.
Returns the propagated exception, if any, with the final working dict. -/
def regressLoop (oracle : Oracle) (pred : Predicate) (args : List String) (cc : String) :
    List (String × String) → Dict → Option PyErr × Dict
  | [], opts => (none, opts)
  | (key, value) :: rest, opts =>
    match Dict.lookup opts key with
    | none => (some (PyErr.keyError key), opts)
    | some original =>
      if original = value then regressLoop oracle pred args cc rest opts
      else
        match Optimizers.trial oracle pred ⟨Dict.insert opts key value, args, cc⟩ with
        | none => regressLoop oracle pred args cc rest (Dict.insert opts key value)
        | some e =>
          if PyErr.isSubprocessError e then
            regressLoop oracle pred args cc rest
              (Dict.insert (Dict.insert opts key value) key original)
          else (some e, Dict.insert opts key value)

/-- Lines 69-91, `Optimizers.regress`. Line 74 builds the working set as
`cls( base.options, reach.args, base.cc )`, passing `base.options` itself
(no copy is taken), so the lazy `base.diff( reach )` the loop consumes reads
the very dict the loop mutates (hence `regressLoop`), and the final working
dict is also the final state of `base.options`. Returns the propagated
exception, if any, together with the working set. -/
def Optimizers.regress (oracle : Oracle) (pred : Predicate) (base reach : Optimizers) :
    Option PyErr × Optimizers :=
  ((regressLoop oracle pred reach.args base.cc reach.options base.options).1,
   ⟨(regressLoop oracle pred reach.args base.cc reach.options base.options).2,
    reach.args, base.cc⟩)

/-- The state of the dict object `base.options` at the moment `regress`
finishes, normally or exceptionally. Line 74 aliases the working set's
`options` to `base.options` without copying, and every mutation of the walk
(lines 79 and 88) targets that shared dict, so this state is exactly the
working dict `regressLoop` ends with. -/
def Optimizers.baseOptionsAfterRegress (oracle : Oracle) (pred : Predicate)
    (base reach : Optimizers) : Dict :=
  (Optimizers.regress oracle pred base reach).2.options

/-- Lines 102-109 of `testPredicate`: split the token stream at `;` tokens
into command vectors; there is always at least one (possibly empty) vector. -/
def splitCommands : List String → List (List String)
  | [] => [[]]
  | t :: ts =>
    if t = ";" then [] :: splitCommands ts
    else
      match splitCommands ts with
      | [] => [[t]]
      | c :: cs => (t :: c) :: cs

/-- One predicate command as an oracle: `subprocess.run( cmd, ..., check =
True, timeout = timeout )` at line 113 either completes with exit status zero
(`none`) or raises (`some e`): `calledProcessError` on a non-zero exit,
`timeoutExpired` when the configured timeout expires, `fileNotFoundError`
when the executable does not exist, `indexError` when the vector is empty. -/
abbrev Runner := List String → Option PyErr

/-- Lines 111-113: run the command vectors in order, raising the first
command exception. -/
def runCommands (runner : Runner) : List (List String) → Option PyErr
  | [] => none
  | c :: cs =>
    match runner c with
    | none => runCommands runner cs
    | some e => some e

/-- Lines 93-113, `testPredicate`, with the template formatting and shell
tokenization of lines 97-98 (stdlib `str.format` plus `shlex.split`,
out-of-scope glue per the spec) abstracted as the `tokenize` parameter, and
the per-command subprocess behavior abstracted as `runner`. -/
def testPredicate (runner : Runner) (tokenize : List String → List String)
    (options : List String) : Option PyErr :=
  runCommands runner (splitCommands (tokenize options))

/-- Index of the leftmost occurrence of `pat` in a character list, if any. -/
def firstOccIdx (pat : List Char) : List Char → Option Nat
  | [] => none
  | c :: cs =>
    if pat.isPrefixOf (c :: cs) then some 0
    else (firstOccIdx pat cs).map Nat.succ

/-- Spec-side rendering of the `Disabled` serialization rule, written from the
spec's words (flatten step 4: the flag name with its `-f` rewritten to
`-fno-`, exactly once, leftmost occurrence) independently of the source's
`str.replace` translation, in order to compare the two. -/
def specRewriteDisabled (s : String) : String :=
  match firstOccIdx "-f".toList s.toList with
  | none => s
  | some i => String.mk (s.toList.take i ++ "-fno-".toList ++ s.toList.drop (i + 2))

/-- Spec-side rendering of the per-entry serialization rule of flatten
step 4, to be compared with the source's `Optimizers.transform`. -/
def specTransform (pair : String × String) : String :=
  if pair.2 = "[enabled]" then pair.1
  else if pair.2 = "[disabled]" then specRewriteDisabled pair.1
  else pair.1 ++ pair.2

/-- Every key of `d` is also a key of `b`. -/
def KeysSub (d b : Dict) : Prop :=
  ∀ k, (Dict.lookup d k).isSome → (Dict.lookup b k).isSome

/-- The compiler oracle never fails to start: every query either succeeds or
exits non-zero, raising `CalledProcessError`. -/
def OracleRuns (oracle : Oracle) : Prop :=
  ∀ cc args, (∃ lines, oracle cc args = Except.ok lines) ∨
    (∃ out, oracle cc args = Except.error (PyErr.calledProcessError out))

/-- Every successful compiler report covers the keys of `d`, so re-queries
during the walk can look every walked flag up. -/
def OracleCovers (oracle : Oracle) (d : Dict) : Prop :=
  ∀ cc args lines, oracle cc args = Except.ok lines → KeysSub d (parseReport lines)

/-- The compiler oracle always succeeds. -/
def OracleTotal (oracle : Oracle) : Prop :=
  ∀ cc args, ∃ lines, oracle cc args = Except.ok lines

/-- The first pair the lazy `base.diff( reach )` would yield: the first reach
entry whose value differs from the current working value. -/
def firstDiff (opts : Dict) : List (String × String) → Option (String × String)
  | [] => none
  | (k, v) :: rest =>
    match Dict.lookup opts k with
    | none => none
    | some o => if o = v then firstDiff opts rest else some (k, v)

/-! Basic dict lemmas. -/

theorem Dict.lookup_insert_self (d : Dict) (k v : String) :
    Dict.lookup (Dict.insert d k v) k = some v := by
  induction d with
  | nil => simp [Dict.insert, Dict.lookup]
  | cons p rest ih =>
    obtain ⟨k', v'⟩ := p
    by_cases h : k' = k
    · subst h
      simp [Dict.insert, Dict.lookup]
    · simp [Dict.insert, Dict.lookup, h, ih]

theorem Dict.lookup_insert_ne (d : Dict) (k v k' : String) (h : k' ≠ k) :
    Dict.lookup (Dict.insert d k v) k' = Dict.lookup d k' := by
  induction d with
  | nil =>
    have hne : ¬k = k' := fun hh => h hh.symm
    simp [Dict.insert, Dict.lookup, hne]
  | cons q rest ih =>
    obtain ⟨k₁, v₁⟩ := q
    by_cases h1 : k₁ = k
    · subst h1
      have hne : ¬k₁ = k' := fun hh => h hh.symm
      simp [Dict.insert, Dict.lookup, hne]
    · simp only [Dict.insert, if_neg h1]
      by_cases h2 : k₁ = k'
      · simp [Dict.lookup, h2]
      · simp [Dict.lookup, h2, ih]

theorem Dict.insert_noop {d : Dict} {k v : String} (h : Dict.lookup d k = some v) :
    Dict.insert d k v = d := by
  induction d with
  | nil => simp [Dict.lookup] at h
  | cons p rest ih =>
    obtain ⟨k', v'⟩ := p
    by_cases hk : k' = k
    · subst hk
      simp [Dict.lookup] at h
      simp [Dict.insert, h]
    · simp [Dict.lookup, hk] at h
      simp [Dict.insert, hk, ih h]

theorem Dict.insert_revert {d : Dict} {k v : String} (h : Dict.lookup d k = some v)
    (w : String) : Dict.insert (Dict.insert d k w) k v = d := by
  induction d with
  | nil => simp [Dict.lookup] at h
  | cons p rest ih =>
    obtain ⟨k', v'⟩ := p
    by_cases hk : k' = k
    · subst hk
      simp [Dict.lookup] at h
      simp [Dict.insert, h]
    · simp [Dict.lookup, hk] at h
      simp [Dict.insert, hk, ih h]

theorem Dict.isSome_lookup_insert (d : Dict) (k v k' : String) :
    (Dict.lookup (Dict.insert d k v) k').isSome ↔ k' = k ∨ (Dict.lookup d k').isSome := by
  by_cases h : k' = k
  · subst h
    simp [Dict.lookup_insert_self]
  · simp [Dict.lookup_insert_ne d k v k' h, h]

theorem Dict.lookup_isSome_of_mem {d : Dict} {k v : String} (h : (k, v) ∈ d) :
    (Dict.lookup d k).isSome := by
  induction d with
  | nil => simp at h
  | cons p rest ih =>
    obtain ⟨k', v'⟩ := p
    rcases List.mem_cons.mp h with h1 | h2
    · obtain ⟨rfl, rfl⟩ := Prod.mk.injEq .. ▸ h1
      simp [Dict.lookup]
    · by_cases hk : k' = k
      · simp [Dict.lookup, hk]
      · simp [Dict.lookup, hk, ih h2]

theorem Dict.mem_of_lookup {d : Dict} {k v : String} (h : Dict.lookup d k = some v) :
    (k, v) ∈ d := by
  induction d with
  | nil => simp [Dict.lookup] at h
  | cons p rest ih =>
    obtain ⟨k', v'⟩ := p
    by_cases hk : k' = k
    · subst hk
      simp [Dict.lookup] at h
      subst h
      exact List.mem_cons_self _ _
    · simp [Dict.lookup, hk] at h
      exact List.mem_cons_of_mem _ (ih h)

theorem Dict.lookup_eq_none_iff {d : Dict} {k : String} :
    Dict.lookup d k = none ↔ k ∉ d.map Prod.fst := by
  induction d with
  | nil => simp [Dict.lookup]
  | cons p rest ih =>
    obtain ⟨k', v'⟩ := p
    by_cases hk : k' = k
    · subst hk
      simp [Dict.lookup]
    · have hne : ¬k = k' := fun hh => hk hh.symm
      simp [Dict.lookup, hk, ih, hne]

theorem Dict.insertAll_nil (d : Dict) : Dict.insertAll d [] = d := rfl

theorem Dict.insertAll_cons (d : Dict) (p : String × String) (ps : List (String × String)) :
    Dict.insertAll d (p :: ps) = Dict.insertAll (Dict.insert d p.1 p.2) ps := rfl

theorem Dict.map_fst_insert (d : Dict) (k v : String) :
    (Dict.insert d k v).map Prod.fst =
      if k ∈ d.map Prod.fst then d.map Prod.fst else d.map Prod.fst ++ [k] := by
  induction d with
  | nil => simp [Dict.insert]
  | cons p rest ih =>
    obtain ⟨k', v'⟩ := p
    by_cases hk : k' = k
    · subst hk
      simp [Dict.insert]
    · have hne : ¬k = k' := fun hh => hk hh.symm
      simp only [Dict.insert, if_neg hk, List.map_cons, ih]
      by_cases hm : k ∈ rest.map Prod.fst
      · simp [hm, hne]
      · simp [hm, hne]

theorem Dict.wf_insert {d : Dict} (h : Dict.WF d) (k v : String) :
    Dict.WF (Dict.insert d k v) := by
  unfold Dict.WF at h ⊢
  rw [Dict.map_fst_insert]
  by_cases hm : k ∈ d.map Prod.fst
  · simpa [hm] using h
  · simp only [hm, if_false]
    rw [List.nodup_append]
    exact ⟨h, List.nodup_singleton k, by simpa [List.Disjoint] using fun a ha hb => hm ((by simpa using hb : a = k) ▸ ha)⟩

theorem Dict.wf_insertAll (ps : List (String × String)) :
    ∀ d : Dict, Dict.WF d → Dict.WF (Dict.insertAll d ps) := by
  induction ps with
  | nil =>
    intro d h
    simpa [Dict.insertAll_nil] using h
  | cons p rest ih =>
    intro d h
    rw [Dict.insertAll_cons]
    exact ih _ (Dict.wf_insert h p.1 p.2)

theorem Dict.wf_ofList (ps : List (String × String)) : Dict.WF (Dict.ofList ps) :=
  Dict.wf_insertAll ps [] (by simp [Dict.WF])

theorem Dict.lookup_of_mem_of_wf {d : Dict} (hw : Dict.WF d) {k v : String}
    (h : (k, v) ∈ d) : Dict.lookup d k = some v := by
  induction d with
  | nil => simp at h
  | cons p rest ih =>
    obtain ⟨k', v'⟩ := p
    unfold Dict.WF at hw
    simp only [List.map_cons, List.nodup_cons] at hw
    rcases List.mem_cons.mp h with h1 | h2
    · obtain ⟨rfl, rfl⟩ := Prod.mk.injEq .. ▸ h1
      simp [Dict.lookup]
    · have hk : k' ≠ k := by
        intro hh
        subst hh
        exact hw.1 (List.mem_map_of_mem Prod.fst h2)
      simp [Dict.lookup, hk, ih hw.2 h2]

theorem Dict.lookup_insertAll_not_mem {k : String} :
    ∀ (ps : List (String × String)) (d : Dict), k ∉ ps.map Prod.fst →
      Dict.lookup (Dict.insertAll d ps) k = Dict.lookup d k := by
  intro ps
  induction ps with
  | nil =>
    intro d _
    simp [Dict.insertAll_nil]
  | cons p rest ih =>
    intro d h
    simp only [List.map_cons, List.mem_cons, not_or] at h
    rw [Dict.insertAll_cons, ih _ h.2, Dict.lookup_insert_ne _ _ _ _ h.1]

theorem Dict.lookup_insertAll_mem {k v : String} :
    ∀ (ps : List (String × String)) (d : Dict), (ps.map Prod.fst).Nodup → (k, v) ∈ ps →
      Dict.lookup (Dict.insertAll d ps) k = some v := by
  intro ps
  induction ps with
  | nil =>
    intro d _ h
    simp at h
  | cons p rest ih =>
    intro d hw h
    simp only [List.map_cons, List.nodup_cons] at hw
    rw [Dict.insertAll_cons]
    rcases List.mem_cons.mp h with h1 | h2
    · obtain ⟨rfl, rfl⟩ := Prod.mk.injEq .. ▸ h1
      rw [Dict.lookup_insertAll_not_mem rest _ hw.1, Dict.lookup_insert_self]
    · exact ih _ hw.2 h2

/-! Lemmas about consuming the diff. -/

theorem Dict.diffE_eq_filter {self : Dict} :
    ∀ {other : List (String × String)}, (∀ p ∈ other, (Dict.lookup self p.1).isSome) →
      Dict.diffE self other =
        Except.ok (other.filter fun p => decide (Dict.lookup self p.1 ≠ some p.2)) := by
  intro other
  induction other with
  | nil =>
    intro _
    simp [Dict.diffE]
  | cons p rest ih =>
    intro h
    obtain ⟨k, v⟩ := p
    have hk := h (k, v) (List.mem_cons_self _ _)
    obtain ⟨w, hw⟩ := Option.isSome_iff_exists.mp hk
    have htail := ih fun p hp => h p (List.mem_cons_of_mem _ hp)
    by_cases hwv : w = v
    · subst hwv
      simp [Dict.diffE, hw, htail, List.filter_cons]
    · simp [Dict.diffE, hw, htail, List.filter_cons, hwv]

theorem Dict.diffE_error_of_missing {self : Dict} :
    ∀ {other : List (String × String)}, (∃ p ∈ other, Dict.lookup self p.1 = none) →
      ∃ k, Dict.diffE self other = Except.error (PyErr.keyError k) := by
  intro other
  induction other with
  | nil =>
    intro h
    simp at h
  | cons p rest ih =>
    intro h
    obtain ⟨k, v⟩ := p
    cases hl : Dict.lookup self k with
    | none => exact ⟨k, by simp [Dict.diffE, hl]⟩
    | some w =>
      have hrest : ∃ p ∈ rest, Dict.lookup self p.1 = none := by
        obtain ⟨q, hq, hqn⟩ := h
        rcases List.mem_cons.mp hq with h1 | h2
        · subst h1
          simp [hl] at hqn
        · exact ⟨q, h2, hqn⟩
      obtain ⟨k', hk'⟩ := ih hrest
      exact ⟨k', by simp [Dict.diffE, hl, hk']⟩

/-! Lemmas about key coverage and the trial body. -/

theorem keysSub_refl (d : Dict) : KeysSub d d := fun _ h => h

theorem keysSub_trans {a b c : Dict} (h1 : KeysSub a b) (h2 : KeysSub b c) : KeysSub a c :=
  fun k hk => h2 k (h1 k hk)

theorem keysSub_insert {d b : Dict} {k : String} (hb : (Dict.lookup b k).isSome)
    (h : KeysSub d b) (v : String) : KeysSub (Dict.insert d k v) b := by
  intro k' hk'
  rcases (Dict.isSome_lookup_insert d k v k').mp hk' with h1 | h2
  · subst h1
    exact hb
  · exact h k' h2

theorem Optimizers.trial_eq_pred {oracle : Oracle} {pred : Predicate} {d : Dict}
    {args lines : List String} {cc : String}
    (hok : oracle cc args = Except.ok lines) (hcov : KeysSub d (parseReport lines)) :
    ∃ argv, Optimizers.trial oracle pred ⟨d, args, cc⟩ = pred argv := by
  have hall : ∀ p ∈ d, (Dict.lookup (parseReport lines) p.1).isSome := fun p hp =>
    hcov p.1 (Dict.lookup_isSome_of_mem hp)
  refine ⟨args ++ List.map Optimizers.transform
    (List.filter
      (fun a => !decide (a.2 = "[default]") && !decide (Dict.lookup (parseReport lines) a.1 = some a.2))
      d), ?_⟩
  simp [Optimizers.trial, Optimizers.flatten, Optimizers.fromArgs, hok, Optimizers.diff,
    Dict.diffE_eq_filter hall]

theorem Optimizers.trial_oracle_error {oracle : Oracle} {pred : Predicate} {d : Dict}
    {args : List String} {cc : String} {e : PyErr}
    (h : oracle cc args = Except.error e) :
    Optimizers.trial oracle pred ⟨d, args, cc⟩ = some e := by
  simp [Optimizers.trial, Optimizers.flatten, Optimizers.fromArgs, h]

theorem trial_none_of {oracle : Oracle} {pred : Predicate} {b : Dict}
    {args : List String} {cc : String}
    (hT : OracleTotal oracle) (hC : OracleCovers oracle b)
    (hP : ∀ argv, pred argv = none) :
    ∀ d : Dict, KeysSub d b → Optimizers.trial oracle pred ⟨d, args, cc⟩ = none := by
  intro d hd
  obtain ⟨lines, hok⟩ := hT cc args
  obtain ⟨argv, ha⟩ := Optimizers.trial_eq_pred hok (keysSub_trans hd (hC cc args lines hok))
  rw [ha, hP argv]

theorem trial_subprocess_of {oracle : Oracle} {pred : Predicate} {b : Dict}
    {args : List String} {cc : String}
    (hR : OracleRuns oracle) (hC : OracleCovers oracle b)
    (hP : ∀ argv, ∃ e, pred argv = some e ∧ PyErr.isSubprocessError e = true) :
    ∀ d : Dict, KeysSub d b →
      ∃ e, Optimizers.trial oracle pred ⟨d, args, cc⟩ = some e ∧
        PyErr.isSubprocessError e = true := by
  intro d hd
  rcases hR cc args with ⟨lines, hok⟩ | ⟨out, herr⟩
  · obtain ⟨argv, ha⟩ := Optimizers.trial_eq_pred hok (keysSub_trans hd (hC cc args lines hok))
    obtain ⟨e, he, hes⟩ := hP argv
    exact ⟨e, ha.trans he, hes⟩
  · exact ⟨PyErr.calledProcessError out, Optimizers.trial_oracle_error herr, rfl⟩

theorem trial_benign_of {oracle : Oracle} {pred : Predicate} {b : Dict}
    {args : List String} {cc : String}
    (hR : OracleRuns oracle) (hC : OracleCovers oracle b)
    (hP : ∀ argv, pred argv = none ∨
      ∃ e, pred argv = some e ∧ PyErr.isSubprocessError e = true) :
    ∀ d : Dict, KeysSub d b →
      Optimizers.trial oracle pred ⟨d, args, cc⟩ = none ∨
        ∃ e, Optimizers.trial oracle pred ⟨d, args, cc⟩ = some e ∧
          PyErr.isSubprocessError e = true := by
  intro d hd
  rcases hR cc args with ⟨lines, hok⟩ | ⟨out, herr⟩
  · obtain ⟨argv, ha⟩ := Optimizers.trial_eq_pred hok (keysSub_trans hd (hC cc args lines hok))
    rcases hP argv with h | ⟨e, he, hes⟩
    · exact Or.inl (ha.trans h)
    · exact Or.inr ⟨e, ha.trans he, hes⟩
  · exact Or.inr ⟨PyErr.calledProcessError out, Optimizers.trial_oracle_error herr, rfl⟩

theorem trial_const_of {oracle : Oracle} {pred : Predicate} {b : Dict}
    {args : List String} {cc : String} {e₀ : PyErr}
    (hT : OracleTotal oracle) (hC : OracleCovers oracle b)
    (hP : ∀ argv, pred argv = some e₀) :
    ∀ d : Dict, KeysSub d b → Optimizers.trial oracle pred ⟨d, args, cc⟩ = some e₀ := by
  intro d hd
  obtain ⟨lines, hok⟩ := hT cc args
  obtain ⟨argv, ha⟩ := Optimizers.trial_eq_pred hok (keysSub_trans hd (hC cc args lines hok))
  rw [ha, hP argv]

/-! Lemmas about the regression walk. -/

theorem regressLoop_state_all_fail {oracle : Oracle} {pred : Predicate}
    {args : List String} {cc : String} {b : Dict}
    (H : ∀ d : Dict, KeysSub d b →
      ∃ e, Optimizers.trial oracle pred ⟨d, args, cc⟩ = some e ∧
        PyErr.isSubprocessError e = true) :
    ∀ (items : List (String × String)) (opts : Dict), KeysSub opts b →
      (regressLoop oracle pred args cc items opts).2 = opts := by
  intro items
  induction items with
  | nil =>
    intro opts _
    simp [regressLoop]
  | cons p rest ih =>
    intro opts hsub
    obtain ⟨k, v⟩ := p
    cases hl : Dict.lookup opts k with
    | none => simp [regressLoop, hl]
    | some o =>
      by_cases hov : o = v
      · simp [regressLoop, hl, hov, ih opts hsub]
      · have hsome : (Dict.lookup b k).isSome := hsub k (by simp [hl])
        have hsub' : KeysSub (Dict.insert opts k v) b := keysSub_insert hsome hsub v
        obtain ⟨e, he, hes⟩ := H (Dict.insert opts k v) hsub'
        have hrev : Dict.insert (Dict.insert opts k v) k o = opts := Dict.insert_revert hl v
        simp [regressLoop, hl, hov, he, hes, hrev, ih opts hsub]

theorem regressLoop_all_fail {oracle : Oracle} {pred : Predicate}
    {args : List String} {cc : String} {b : Dict}
    (H : ∀ d : Dict, KeysSub d b →
      ∃ e, Optimizers.trial oracle pred ⟨d, args, cc⟩ = some e ∧
        PyErr.isSubprocessError e = true) :
    ∀ (items : List (String × String)) (opts : Dict), KeysSub opts b →
      (∀ p ∈ items, (Dict.lookup opts p.1).isSome) →
      regressLoop oracle pred args cc items opts = (none, opts) := by
  intro items
  induction items with
  | nil =>
    intro opts _ _
    simp [regressLoop]
  | cons p rest ih =>
    intro opts hsub hitems
    obtain ⟨k, v⟩ := p
    obtain ⟨o, hl⟩ := Option.isSome_iff_exists.mp (hitems (k, v) (List.mem_cons_self _ _))
    have hrest : ∀ p ∈ rest, (Dict.lookup opts p.1).isSome := fun p hp =>
      hitems p (List.mem_cons_of_mem _ hp)
    by_cases hov : o = v
    · simp [regressLoop, hl, hov, ih opts hsub hrest]
    · have hsome : (Dict.lookup b k).isSome := hsub k (by simp [hl])
      have hsub' : KeysSub (Dict.insert opts k v) b := keysSub_insert hsome hsub v
      obtain ⟨e, he, hes⟩ := H (Dict.insert opts k v) hsub'
      have hrev : Dict.insert (Dict.insert opts k v) k o = opts := Dict.insert_revert hl v
      simp [regressLoop, hl, hov, he, hes, hrev, ih opts hsub hrest]

theorem regressLoop_all_pass {oracle : Oracle} {pred : Predicate}
    {args : List String} {cc : String} {b : Dict}
    (H : ∀ d : Dict, KeysSub d b → Optimizers.trial oracle pred ⟨d, args, cc⟩ = none) :
    ∀ (items : List (String × String)) (opts : Dict), KeysSub opts b →
      (∀ p ∈ items, (Dict.lookup opts p.1).isSome) →
      regressLoop oracle pred args cc items opts = (none, Dict.insertAll opts items) := by
  intro items
  induction items with
  | nil =>
    intro opts _ _
    simp [regressLoop, Dict.insertAll_nil]
  | cons p rest ih =>
    intro opts hsub hitems
    obtain ⟨k, v⟩ := p
    obtain ⟨o, hl⟩ := Option.isSome_iff_exists.mp (hitems (k, v) (List.mem_cons_self _ _))
    have hrest : ∀ p ∈ rest, (Dict.lookup opts p.1).isSome := fun p hp =>
      hitems p (List.mem_cons_of_mem _ hp)
    rw [Dict.insertAll_cons]
    by_cases hov : o = v
    · subst hov
      have hnoop : Dict.insert opts k o = opts := Dict.insert_noop hl
      simp only [hnoop]
      simp [regressLoop, hl, ih opts hsub hrest]
    · have hsome : (Dict.lookup b k).isSome := hsub k (by simp [hl])
      have hsub' : KeysSub (Dict.insert opts k v) b := keysSub_insert hsome hsub v
      have hrest' : ∀ p ∈ rest, (Dict.lookup (Dict.insert opts k v) p.1).isSome := fun p hp =>
        (Dict.isSome_lookup_insert opts k v p.1).mpr (Or.inr (hrest p hp))
      simp [regressLoop, hl, hov, H (Dict.insert opts k v) hsub', ih _ hsub' hrest']

theorem regressLoop_no_propagate {oracle : Oracle} {pred : Predicate}
    {args : List String} {cc : String} {b : Dict}
    (H : ∀ d : Dict, KeysSub d b →
      Optimizers.trial oracle pred ⟨d, args, cc⟩ = none ∨
        ∃ e, Optimizers.trial oracle pred ⟨d, args, cc⟩ = some e ∧
          PyErr.isSubprocessError e = true) :
    ∀ (items : List (String × String)) (opts : Dict), KeysSub opts b →
      (∀ p ∈ items, (Dict.lookup opts p.1).isSome) →
      (regressLoop oracle pred args cc items opts).1 = none := by
  intro items
  induction items with
  | nil =>
    intro opts _ _
    simp [regressLoop]
  | cons p rest ih =>
    intro opts hsub hitems
    obtain ⟨k, v⟩ := p
    obtain ⟨o, hl⟩ := Option.isSome_iff_exists.mp (hitems (k, v) (List.mem_cons_self _ _))
    have hrest : ∀ p ∈ rest, (Dict.lookup opts p.1).isSome := fun p hp =>
      hitems p (List.mem_cons_of_mem _ hp)
    by_cases hov : o = v
    · simp [regressLoop, hl, hov, ih opts hsub hrest]
    · have hsome : (Dict.lookup b k).isSome := hsub k (by simp [hl])
      have hsub' : KeysSub (Dict.insert opts k v) b := keysSub_insert hsome hsub v
      have hrest' : ∀ p ∈ rest, (Dict.lookup (Dict.insert opts k v) p.1).isSome := fun p hp =>
        (Dict.isSome_lookup_insert opts k v p.1).mpr (Or.inr (hrest p hp))
      have hrev : Dict.insert (Dict.insert opts k v) k o = opts := Dict.insert_revert hl v
      rcases H (Dict.insert opts k v) hsub' with hnone | ⟨e, he, hes⟩
      · simp [regressLoop, hl, hov, hnone, ih _ hsub' hrest']
      · simp [regressLoop, hl, hov, he, hes, hrev, ih opts hsub hrest]

theorem regressLoop_first_diff {oracle : Oracle} {pred : Predicate}
    {args : List String} {cc : String} {b : Dict} {e₀ : PyErr}
    (H : ∀ d : Dict, KeysSub d b → Optimizers.trial oracle pred ⟨d, args, cc⟩ = some e₀)
    (he : PyErr.isSubprocessError e₀ = false) :
    ∀ (items : List (String × String)) (opts : Dict), KeysSub opts b →
      ∀ {k v : String}, firstDiff opts items = some (k, v) →
      regressLoop oracle pred args cc items opts = (some e₀, Dict.insert opts k v) := by
  intro items
  induction items with
  | nil =>
    intro opts _ k v hfd
    simp [firstDiff] at hfd
  | cons p rest ih =>
    intro opts hsub k v hfd
    obtain ⟨k₁, v₁⟩ := p
    cases hl : Dict.lookup opts k₁ with
    | none => simp [firstDiff, hl] at hfd
    | some o =>
      by_cases hov : o = v₁
      · rw [firstDiff, hl] at hfd
        simp only [hov, if_pos rfl] at hfd
        simp [regressLoop, hl, hov, ih opts hsub hfd]
      · rw [firstDiff, hl] at hfd
        simp only [if_neg hov] at hfd
        obtain ⟨rfl, rfl⟩ := Prod.mk.injEq .. ▸ (Option.some.injEq .. ▸ hfd)
        have hsome : (Dict.lookup b k₁).isSome := hsub k₁ (by simp [hl])
        have hsub' : KeysSub (Dict.insert opts k₁ v₁) b := keysSub_insert hsome hsub v₁
        simp [regressLoop, hl, hov, H (Dict.insert opts k₁ v₁) hsub', he]

/-! Equivalence of the source's leftmost replace with the spec-side rule. -/

theorem replaceFirstAux_eq (pat rep : List Char) :
    ∀ s : List Char, replaceFirstAux pat rep s =
      match firstOccIdx pat s with
      | none => s
      | some i => s.take i ++ rep ++ s.drop (i + pat.length) := by
  intro s
  induction s with
  | nil => simp [replaceFirstAux, firstOccIdx]
  | cons c cs ih =>
    by_cases hp : pat.isPrefixOf (c :: cs)
    · simp [replaceFirstAux, firstOccIdx, hp]
    · rw [replaceFirstAux, if_neg (by simpa using hp), firstOccIdx, if_neg (by simpa using hp), ih]
      cases h : firstOccIdx pat cs with
      | none => simp
      | some i =>
        have harith : i + 1 + pat.length = (i + pat.length) + 1 := by omega
        simp [harith, List.drop_succ_cons, List.take_succ_cons]

theorem pyReplaceFirst_eq_specRewrite (s : String) :
    pyReplaceFirst s "-f" "-fno-" = specRewriteDisabled s := by
  unfold pyReplaceFirst specRewriteDisabled
  rw [replaceFirstAux_eq]
  have hlen : ("-f".toList).length = 2 := rfl
  cases h : firstOccIdx "-f".toList s.toList with
  | none => rfl
  | some i => rw [hlen]

theorem transform_eq_specTransform : Optimizers.transform = specTransform := by
  funext p
  unfold Optimizers.transform specTransform
  by_cases h1 : p.2 = "[enabled]"
  · simp [h1]
  · by_cases h2 : p.2 = "[disabled]"
    · simp [h1, h2, pyReplaceFirst_eq_specRewrite]
    · simp [h1, h2]

/-! The diff of a well-formed dict against itself is empty. -/

theorem Dict.diffE_self_of_wf {d : Dict} (hw : Dict.WF d) :
    Dict.diffE d d = Except.ok [] := by
  have hall : ∀ p ∈ d, (Dict.lookup d p.1).isSome := by
    intro p hp
    obtain ⟨k, v⟩ := p
    exact Dict.lookup_isSome_of_mem hp
  rw [Dict.diffE_eq_filter hall]
  congr 1
  rw [List.filter_eq_nil_iff]
  intro p hp
  obtain ⟨k, v⟩ := p
  simp [Dict.lookup_of_mem_of_wf hw hp]

theorem Dict.isSome_lookup_iff {d : Dict} {k : String} :
    (Dict.lookup d k).isSome ↔ k ∈ d.map Prod.fst := by
  cases h : Dict.lookup d k with
  | none => simp [Dict.lookup_eq_none_iff.mp h]
  | some v =>
    have := List.mem_map_of_mem Prod.fst (Dict.mem_of_lookup h)
    simpa using this

theorem keysSub_of_same_keys {d b : Dict} (h : d.map Prod.fst = b.map Prod.fst) :
    KeysSub d b := by
  intro k hk
  rw [Dict.isSome_lookup_iff] at hk ⊢
  rw [← h]
  exact hk

theorem splitCommands_ne_nil : ∀ l : List String, splitCommands l ≠ [] := by
  intro l
  induction l with
  | nil => simp [splitCommands]
  | cons t ts _ =>
    by_cases h : t = ";"
    · simp [splitCommands, h]
    · rw [splitCommands, if_neg h]
      cases hs : splitCommands ts with
      | nil => simp
      | cons c cs => simp

/-! Claim theorems. -/

/-- C5: for every OptimizerSet whose compiler re-query succeeds with report
`lines` and whose delta (the diff of the implied set against this set) is
`delta`, `flatten` drops the delta entries whose value is `[default]`, emits
the bare flag name for `[enabled]`, rewrites the leftmost `-f` of the name to
`-fno-` exactly once for `[disabled]`, emits the name concatenated with the
value (no separator) for a valued entry, and returns `baseArgs` followed by
the transformed delta entries in delta-iteration order. The transformation is
stated via the spec-side `specTransform`, whose `[disabled]` case rewrites
the leftmost occurrence by explicit index. -/
theorem c5_flatten_serialization (oracle : Oracle) (self : Optimizers)
    (lines : List String) (delta : List (String × String))
    (hok : oracle self.cc self.args = Except.ok lines)
    (hdelta : Dict.diffE (parseReport lines) self.options = Except.ok delta) :
    Optimizers.flatten oracle self = Except.ok (self.args ++
      ((delta.filter fun p => decide (p.2 ≠ "[default]")).map specTransform)) := by
  simp [Optimizers.flatten, Optimizers.fromArgs, hok, Optimizers.diff, hdelta,
    transform_eq_specTransform]

/-- Witness for C5 at the spec's own scenario flags: the `[disabled]` entry
becomes `-fno-tree-vectorize`, the `[enabled]` entry stays `-funroll-loops`,
the valued entry becomes `-finline-limit=600`, and the `[default]` entry is
dropped. -/
theorem c5_flatten_serialization_witness :
    Optimizers.flatten
        (fun _ _ => Except.ok ["-ftree-vectorize [enabled]", "-funroll-loops [disabled]",
          "-finline-limit= 400", "-fgcse [enabled]"])
        ⟨[("-ftree-vectorize", "[disabled]"), ("-funroll-loops", "[enabled]"),
          ("-finline-limit=", "600"), ("-fgcse", "[default]")], ["-O2"], "gcc"⟩ =
      Except.ok ["-O2", "-fno-tree-vectorize", "-funroll-loops", "-finline-limit=600"] := by
  have h := c5_flatten_serialization
    (fun _ _ => Except.ok ["-ftree-vectorize [enabled]", "-funroll-loops [disabled]",
      "-finline-limit= 400", "-fgcse [enabled]"])
    ⟨[("-ftree-vectorize", "[disabled]"), ("-funroll-loops", "[enabled]"),
      ("-finline-limit=", "600"), ("-fgcse", "[default]")], ["-O2"], "gcc"⟩
    ["-ftree-vectorize [enabled]", "-funroll-loops [disabled]",
      "-finline-limit= 400", "-fgcse [enabled]"]
    [("-ftree-vectorize", "[disabled]"), ("-funroll-loops", "[enabled]"),
      ("-finline-limit=", "600"), ("-fgcse", "[default]")]
    rfl (by decide)
  rw [h]
  decide

/-- C6: idempotence of flatten: if `flatten S` succeeds with argument list `L`
and `fromArgs (flatten S)` with the same compiler succeeds giving `S'`, then
`flatten S'` equals `flatten S`: re-flattening a flattened set changes
nothing. The oracle being a single fixed function models the fixed,
consistent compiler-report oracle. -/
theorem c6_flatten_idempotent (oracle : Oracle) (S S' : Optimizers) (L : List String)
    (h1 : Optimizers.flatten oracle S = Except.ok L)
    (h2 : Optimizers.fromArgs oracle L S.cc = Except.ok S') :
    Optimizers.flatten oracle S' = Optimizers.flatten oracle S := by
  unfold Optimizers.fromArgs at h2
  cases ho : oracle S.cc L with
  | error e =>
    rw [ho] at h2
    exact absurd h2 (by simp)
  | ok lines =>
    rw [ho] at h2
    have hS' : S' = ⟨parseReport lines, L, S.cc⟩ := by
      injection h2 with h2
      exact h2.symm
    subst hS'
    have hwf : Dict.WF (parseReport lines) := Dict.wf_ofList _
    have hnil : Dict.diffE (parseReport lines) (parseReport lines) = Except.ok [] :=
      Dict.diffE_self_of_wf hwf
    rw [h1]
    simp [Optimizers.flatten, Optimizers.fromArgs, ho, Optimizers.diff, hnil]

/-- Witness for C6: a set whose flatten emits `-fno-a` re-parses to an
explicitly disabled set that flattens to the same argument list. -/
theorem c6_flatten_idempotent_witness :
    Optimizers.flatten (fun _ _ => Except.ok ["-fa [enabled]"])
        ⟨[("-fa", "[enabled]")], ["-O2", "-fno-a"], "gcc"⟩ =
      Optimizers.flatten (fun _ _ => Except.ok ["-fa [enabled]"])
        ⟨[("-fa", "[disabled]")], ["-O2"], "gcc"⟩ :=
  c6_flatten_idempotent (fun _ _ => Except.ok ["-fa [enabled]"])
    ⟨[("-fa", "[disabled]")], ["-O2"], "gcc"⟩
    ⟨[("-fa", "[enabled]")], ["-O2", "-fno-a"], "gcc"⟩
    ["-O2", "-fno-a"] (by decide) (by decide)

/-- C7 counterexample: when the compiler cannot be started, `fromArgs` does
not fail with a SubprocessError carrying captured output: the `OSError`
(`FileNotFoundError`) propagates unchanged and is not a SubprocessError,
refuting the claim that both failure modes raise `CompilerInvocationError`
carrying the captured standard output and error. -/
theorem c7_counterexample :
    Optimizers.fromArgs (fun _ _ => Except.error PyErr.fileNotFoundError) ["-O2"] "gcc" =
        Except.error PyErr.fileNotFoundError ∧
      PyErr.isSubprocessError PyErr.fileNotFoundError = false :=
  ⟨rfl, rfl⟩

/-- C7 amended: `fromArgs` propagates the compiler-invocation error exactly as
raised: on a non-zero exit that is `CalledProcessError`, a SubprocessError
carrying the captured output, but when the compiler cannot be started the
bare `OSError` propagates, which is not a SubprocessError and carries no
captured output. -/
theorem c7_amended_fromArgs_errors (oracle : Oracle) (args : List String) (cc : String)
    (e : PyErr) (h : oracle cc args = Except.error e) :
    Optimizers.fromArgs oracle args cc = Except.error e ∧
      (PyErr.isSubprocessError e = true ↔
        (∃ out, e = PyErr.calledProcessError out) ∨ (∃ out, e = PyErr.timeoutExpired out)) := by
  constructor
  · simp [Optimizers.fromArgs, h]
  · cases e <;> simp [PyErr.isSubprocessError]

/-- Witness for C7 amended at a non-zero compiler exit with captured output,
and at a start failure. -/
theorem c7_amended_fromArgs_errors_witness :
    Optimizers.fromArgs (fun _ _ => Except.error (PyErr.calledProcessError ["boom"]))
        ["-O1"] "gcc" = Except.error (PyErr.calledProcessError ["boom"]) ∧
      PyErr.isSubprocessError (PyErr.calledProcessError ["boom"]) = true ∧
      Optimizers.fromArgs (fun _ _ => Except.error PyErr.fileNotFoundError)
        ["-O1"] "gcc" = Except.error PyErr.fileNotFoundError :=
  ⟨(c7_amended_fromArgs_errors (fun _ _ => Except.error (PyErr.calledProcessError ["boom"]))
      ["-O1"] "gcc" (PyErr.calledProcessError ["boom"]) rfl).1,
   (c7_amended_fromArgs_errors (fun _ _ => Except.error (PyErr.calledProcessError ["boom"]))
      ["-O1"] "gcc" (PyErr.calledProcessError ["boom"]) rfl).2.mpr (Or.inl ⟨["boom"], rfl⟩),
   (c7_amended_fromArgs_errors (fun _ _ => Except.error PyErr.fileNotFoundError)
      ["-O1"] "gcc" PyErr.fileNotFoundError rfl).1⟩

/-- C9: precondition of `self.diff( other )`: every flag of `other.options`
must also exist in `self.options`. When some flag of `other` is absent from
`self`, consuming the diff fails with a key-lookup error (`KeyError`, the
spec's `UnknownFlagError`); when the precondition holds, the diff yields
exactly the pairs of `other.options` whose value differs from
`self.options`, in `other`'s mapping-iteration order. -/
theorem c9_diff_precondition (self other : Optimizers) :
    ((∃ p ∈ other.options, Dict.lookup self.options p.1 = none) →
      ∃ k, Optimizers.diff self other = Except.error (PyErr.keyError k)) ∧
    ((∀ p ∈ other.options, (Dict.lookup self.options p.1).isSome) →
      Optimizers.diff self other =
        Except.ok (other.options.filter fun p =>
          decide (Dict.lookup self.options p.1 ≠ some p.2))) := by
  constructor
  · intro h
    exact Dict.diffE_error_of_missing h
  · intro h
    exact Dict.diffE_eq_filter h

/-- Witness for C9: a missing flag makes the diff raise `KeyError`, and with
the precondition satisfied the diff is the list of differing pairs in the
other set's order. -/
theorem c9_diff_precondition_witness :
    (∃ k, Optimizers.diff ⟨[("-fa", "[enabled]")], [], "gcc"⟩
        ⟨[("-fb", "[enabled]")], [], "gcc"⟩ = Except.error (PyErr.keyError k)) ∧
      Optimizers.diff ⟨[("-fa", "[enabled]"), ("-fb", "[x]")], [], "gcc"⟩
          ⟨[("-fa", "[disabled]"), ("-fb", "[x]")], [], "gcc"⟩ =
        Except.ok [("-fa", "[disabled]")] := by
  constructor
  · exact (c9_diff_precondition ⟨[("-fa", "[enabled]")], [], "gcc"⟩
      ⟨[("-fb", "[enabled]")], [], "gcc"⟩).1 ⟨("-fb", "[enabled]"), by decide, by decide⟩
  · have h := (c9_diff_precondition ⟨[("-fa", "[enabled]"), ("-fb", "[x]")], [], "gcc"⟩
      ⟨[("-fa", "[disabled]"), ("-fb", "[x]")], [], "gcc"⟩).2 (by decide)
    rw [h]
    decide

/-- C1 counterexample: during the only trial the compiler re-query inside
`flatten` fails with `CalledProcessError` (a compiler-invocation failure),
yet `regress` returns normally with the flag reverted: the failure was caught
by the `except subprocess.SubprocessError` at line 87 exactly like a
predicate failure, instead of being fatal and propagating out of `regress`. -/
theorem c1_counterexample :
    (fun _ _ => Except.error (PyErr.calledProcessError ["compiler failed"]) : Oracle)
        "gcc" ["-O2"] = Except.error (PyErr.calledProcessError ["compiler failed"]) ∧
      Optimizers.regress (fun _ _ => Except.error (PyErr.calledProcessError ["compiler failed"]))
          (fun _ => none) ⟨[("-fa", "[enabled]")], ["-O1"], "gcc"⟩
          ⟨[("-fa", "[disabled]")], ["-O2"], "gcc"⟩ =
        (none, ⟨[("-fa", "[enabled]")], ["-O2"], "gcc"⟩) :=
  ⟨rfl, by decide⟩

/-- C1 amended: predicate failures are handled locally and never propagated,
and a compiler-invocation failure raised by the re-query (`fromArgs` inside
`flatten`) during a trial is itself a `subprocess.SubprocessError`, caught by
the same handler at line 87 and treated as a trial failure (revert) rather
than being fatal: whenever the compiler can always be started, every
successful report covers base's flags, every reach flag exists in base, and
the predicate returns or raises only SubprocessErrors, `regress` propagates
nothing. Only exceptions outside `subprocess.SubprocessError` can escape. -/
theorem c1_amended_failure_semantics (oracle : Oracle) (pred : Predicate)
    (base reach : Optimizers)
    (hR : OracleRuns oracle) (hC : OracleCovers oracle base.options)
    (hP : ∀ argv, pred argv = none ∨
      ∃ e, pred argv = some e ∧ PyErr.isSubprocessError e = true)
    (hK : KeysSub reach.options base.options) :
    (Optimizers.regress oracle pred base reach).1 = none := by
  have H : ∀ d : Dict, KeysSub d base.options →
      Optimizers.trial oracle pred ⟨d, reach.args, base.cc⟩ = none ∨
        ∃ e, Optimizers.trial oracle pred ⟨d, reach.args, base.cc⟩ = some e ∧
          PyErr.isSubprocessError e = true :=
    trial_benign_of hR hC hP
  have hitems : ∀ p ∈ reach.options, (Dict.lookup base.options p.1).isSome := by
    intro p hp
    obtain ⟨k, v⟩ := p
    exact hK k (Dict.lookup_isSome_of_mem hp)
  exact regressLoop_no_propagate H reach.options base.options (keysSub_refl _) hitems

/-- Witness for C1 amended: a compiler oracle that always exits non-zero and a
predicate that always accepts still finish the walk with nothing raised. -/
theorem c1_amended_failure_semantics_witness :
    (Optimizers.regress (fun _ _ => Except.error (PyErr.calledProcessError ["boom"]))
        (fun _ => none) ⟨[("-fa", "[enabled]")], ["-O1"], "gcc"⟩
        ⟨[("-fa", "[disabled]")], ["-O2"], "gcc"⟩).1 = none := by
  apply c1_amended_failure_semantics
  · intro cc args
    exact Or.inr ⟨["boom"], rfl⟩
  · intro cc args lines h
    exact Except.noConfusion h
  · intro argv
    exact Or.inl rfl
  · exact keysSub_of_same_keys (by decide)

/-- C2 counterexample: `regress` does not copy `base.options`: line 74 passes
the dict object itself to the working set, so once the single trial is
accepted, the dict `base.options` refers to has changed when `regress`
returns (`-fa` went from `[enabled]` to `[disabled]`), refuting independence
from `base`. -/
theorem c2_counterexample :
    Optimizers.baseOptionsAfterRegress (fun _ _ => Except.ok ["-fa [enabled]"]) (fun _ => none)
        ⟨[("-fa", "[enabled]")], ["-O1"], "gcc"⟩ ⟨[("-fa", "[disabled]")], ["-O2"], "gcc"⟩ =
      [("-fa", "[disabled]")] ∧
    [("-fa", "[disabled]")] ≠ ([("-fa", "[enabled]")] : Dict) :=
  ⟨by decide, by decide⟩

/-- C2 amended: the working set's options mapping is `base.options` itself (an
alias, not a copy), so after `regress` the dict `base.options` denotes is the
final working dict: it is mutated whenever a trial's change is kept, and it
is unchanged exactly when no tentative change survives; in particular, when
every trial fails with a SubprocessError (so every change is reverted),
`base.options` is unchanged. -/
theorem c2_amended_alias_semantics (oracle : Oracle) (pred : Predicate)
    (base reach : Optimizers)
    (hR : OracleRuns oracle) (hC : OracleCovers oracle base.options)
    (hP : ∀ argv, ∃ e, pred argv = some e ∧ PyErr.isSubprocessError e = true) :
    Optimizers.baseOptionsAfterRegress oracle pred base reach = base.options := by
  have H : ∀ d : Dict, KeysSub d base.options →
      ∃ e, Optimizers.trial oracle pred ⟨d, reach.args, base.cc⟩ = some e ∧
        PyErr.isSubprocessError e = true :=
    trial_subprocess_of hR hC hP
  exact regressLoop_state_all_fail H reach.options base.options (keysSub_refl _)

/-- Witness for C2 amended: with an always-failing predicate the dict behind
`base.options` is untouched. -/
theorem c2_amended_alias_semantics_witness :
    Optimizers.baseOptionsAfterRegress (fun _ _ => Except.ok ["-fa [enabled]"])
        (fun _ => some (PyErr.calledProcessError ["fail"]))
        ⟨[("-fa", "[enabled]")], ["-O1"], "gcc"⟩ ⟨[("-fa", "[disabled]")], ["-O2"], "gcc"⟩ =
      [("-fa", "[enabled]")] := by
  apply c2_amended_alias_semantics
  · intro cc args
    exact Or.inl ⟨["-fa [enabled]"], rfl⟩
  · intro cc args lines h
    injection h with h
    subst h
    exact keysSub_of_same_keys (by decide)
  · intro argv
    exact ⟨PyErr.calledProcessError ["fail"], rfl, rfl⟩

/-- C3: revert correctness: if the predicate raises a predicate failure (a
SubprocessError) on every trial, while the compiler oracle at worst raises
SubprocessErrors and its successful reports cover base's flags, then the
options of the set `regress` returns agree with `base.options` on every key
of `reach.options` (the projection onto reach's key set): no flag change
survives. -/
theorem c3_revert_correctness (oracle : Oracle) (pred : Predicate) (base reach : Optimizers)
    (hR : OracleRuns oracle) (hC : OracleCovers oracle base.options)
    (hP : ∀ argv, ∃ e, pred argv = some e ∧ PyErr.isSubprocessError e = true) :
    ∀ k, (Dict.lookup reach.options k).isSome →
      Dict.lookup (Optimizers.regress oracle pred base reach).2.options k =
        Dict.lookup base.options k := by
  have H : ∀ d : Dict, KeysSub d base.options →
      ∃ e, Optimizers.trial oracle pred ⟨d, reach.args, base.cc⟩ = some e ∧
        PyErr.isSubprocessError e = true :=
    trial_subprocess_of hR hC hP
  have hstate : (regressLoop oracle pred reach.args base.cc reach.options base.options).2 =
      base.options :=
    regressLoop_state_all_fail H reach.options base.options (keysSub_refl _)
  intro k _
  have heq : (Optimizers.regress oracle pred base reach).2.options =
      (regressLoop oracle pred reach.args base.cc reach.options base.options).2 := rfl
  rw [heq, hstate]

/-- Witness for C3: a predicate that always times out leaves `-fa` at base's
`[enabled]`. -/
theorem c3_revert_correctness_witness :
    Dict.lookup (Optimizers.regress (fun _ _ => Except.ok ["-fa [enabled]"])
        (fun _ => some (PyErr.timeoutExpired []))
        ⟨[("-fa", "[enabled]")], ["-O1"], "gcc"⟩
        ⟨[("-fa", "[disabled]")], ["-O2"], "gcc"⟩).2.options "-fa" =
      Dict.lookup [("-fa", "[enabled]")] "-fa" := by
  apply c3_revert_correctness
  · intro cc args
    exact Or.inl ⟨["-fa [enabled]"], rfl⟩
  · intro cc args lines h
    injection h with h
    subst h
    exact keysSub_of_same_keys (by decide)
  · intro argv
    exact ⟨PyErr.timeoutExpired [], rfl, rfl⟩
  · decide

/-- C4: accept-all correctness: if the predicate returns normally on every
trial, while the compiler oracle always succeeds with reports covering base's
flags, reach's flag names all exist in base (the diff precondition) and
reach's options form a proper dict, then every key of the diff
`base.diff( reach )` carries reach's value in the returned set's options, and
every other key keeps base's value: the full walk completes. -/
theorem c4_accept_all_correctness (oracle : Oracle) (pred : Predicate) (base reach : Optimizers)
    (hT : OracleTotal oracle) (hC : OracleCovers oracle base.options)
    (hP : ∀ argv, pred argv = none)
    (hK : KeysSub reach.options base.options) (hW : Dict.WF reach.options) :
    (∀ k v, Dict.lookup reach.options k = some v →
      Dict.lookup base.options k ≠ some v →
      Dict.lookup (Optimizers.regress oracle pred base reach).2.options k = some v) ∧
    (∀ k, (Dict.lookup reach.options k = none ∨
        Dict.lookup reach.options k = Dict.lookup base.options k) →
      Dict.lookup (Optimizers.regress oracle pred base reach).2.options k =
        Dict.lookup base.options k) := by
  have H : ∀ d : Dict, KeysSub d base.options →
      Optimizers.trial oracle pred ⟨d, reach.args, base.cc⟩ = none :=
    trial_none_of hT hC hP
  have hitems : ∀ p ∈ reach.options, (Dict.lookup base.options p.1).isSome := by
    intro p hp
    obtain ⟨k, v⟩ := p
    exact hK k (Dict.lookup_isSome_of_mem hp)
  have hloop := regressLoop_all_pass H reach.options base.options (keysSub_refl _) hitems
  have hopts : (Optimizers.regress oracle pred base reach).2.options =
      Dict.insertAll base.options reach.options := by
    have h0 : (Optimizers.regress oracle pred base reach).2.options =
        (regressLoop oracle pred reach.args base.cc reach.options base.options).2 := rfl
    rw [h0, hloop]
  constructor
  · intro k v hr _
    rw [hopts]
    exact Dict.lookup_insertAll_mem reach.options base.options hW (Dict.mem_of_lookup hr)
  · intro k hk
    rw [hopts]
    rcases hk with hnone | heq
    · exact Dict.lookup_insertAll_not_mem reach.options base.options
        (Dict.lookup_eq_none_iff.mp hnone)
    · cases hr : Dict.lookup reach.options k with
      | none =>
        exact Dict.lookup_insertAll_not_mem reach.options base.options
          (Dict.lookup_eq_none_iff.mp hr)
      | some v =>
        rw [Dict.lookup_insertAll_mem reach.options base.options hW (Dict.mem_of_lookup hr)]
        rw [hr] at heq
        exact heq

/-- Witness for C4: with an always-accepting predicate the differing flag
`-fa` takes reach's `[disabled]` and the agreeing flag `-fb` keeps base's
value. -/
theorem c4_accept_all_correctness_witness :
    Dict.lookup (Optimizers.regress (fun _ _ => Except.ok ["-fa [enabled]", "-fb [enabled]"])
        (fun _ => none)
        ⟨[("-fa", "[enabled]"), ("-fb", "[enabled]")], ["-O1"], "gcc"⟩
        ⟨[("-fa", "[disabled]"), ("-fb", "[enabled]")], ["-O2"], "gcc"⟩).2.options "-fa" =
      some "[disabled]" ∧
    Dict.lookup (Optimizers.regress (fun _ _ => Except.ok ["-fa [enabled]", "-fb [enabled]"])
        (fun _ => none)
        ⟨[("-fa", "[enabled]"), ("-fb", "[enabled]")], ["-O1"], "gcc"⟩
        ⟨[("-fa", "[disabled]"), ("-fb", "[enabled]")], ["-O2"], "gcc"⟩).2.options "-fb" =
      Dict.lookup [("-fa", "[enabled]"), ("-fb", "[enabled]")] "-fb" := by
  have hT : OracleTotal (fun _ _ => Except.ok ["-fa [enabled]", "-fb [enabled]"]) :=
    fun cc args => ⟨["-fa [enabled]", "-fb [enabled]"], rfl⟩
  have hC : OracleCovers (fun _ _ => Except.ok ["-fa [enabled]", "-fb [enabled]"])
      [("-fa", "[enabled]"), ("-fb", "[enabled]")] := by
    intro cc args lines h
    injection h with h
    subst h
    exact keysSub_of_same_keys (by decide)
  have h := c4_accept_all_correctness (fun _ _ => Except.ok ["-fa [enabled]", "-fb [enabled]"])
    (fun _ => none)
    ⟨[("-fa", "[enabled]"), ("-fb", "[enabled]")], ["-O1"], "gcc"⟩
    ⟨[("-fa", "[disabled]"), ("-fb", "[enabled]")], ["-O2"], "gcc"⟩
    hT hC (fun _ => rfl) (keysSub_of_same_keys (by decide)) (by decide)
  exact ⟨h.1 "-fa" "[disabled]" (by decide) (by decide), h.2 "-fb" (Or.inr (by decide))⟩

/-- C8: expiry of the configured timeout while running a predicate command is
treated as a predicate failure and is never fatal: with every predicate
command raising `TimeoutExpired` (a SubprocessError carried out of
`subprocess.run` at line 113), a compiler oracle that at worst raises
SubprocessErrors with reports covering base's flags, and reach's flags
present in base, `regress` propagates nothing (the walk runs to completion)
and every tentative flag change is reverted. -/
theorem c8_timeout_is_predicate_failure (oracle : Oracle) (runner : Runner)
    (tokenize : List String → List String) (base reach : Optimizers)
    (hR : OracleRuns oracle) (hC : OracleCovers oracle base.options)
    (hK : KeysSub reach.options base.options)
    (hT : ∀ cmd, ∃ out, runner cmd = some (PyErr.timeoutExpired out)) :
    (Optimizers.regress oracle (testPredicate runner tokenize) base reach).1 = none ∧
      (Optimizers.regress oracle (testPredicate runner tokenize) base reach).2.options =
        base.options := by
  have hpred : ∀ argv, ∃ e, testPredicate runner tokenize argv = some e ∧
      PyErr.isSubprocessError e = true := by
    intro argv
    unfold testPredicate
    cases hsplit : splitCommands (tokenize argv) with
    | nil => exact absurd hsplit (splitCommands_ne_nil _)
    | cons c cs =>
      obtain ⟨out, hout⟩ := hT c
      exact ⟨PyErr.timeoutExpired out, by simp [runCommands, hout], rfl⟩
  have H : ∀ d : Dict, KeysSub d base.options →
      ∃ e, Optimizers.trial oracle (testPredicate runner tokenize) ⟨d, reach.args, base.cc⟩ =
          some e ∧ PyErr.isSubprocessError e = true :=
    trial_subprocess_of hR hC hpred
  have hitems : ∀ p ∈ reach.options, (Dict.lookup base.options p.1).isSome := by
    intro p hp
    obtain ⟨k, v⟩ := p
    exact hK k (Dict.lookup_isSome_of_mem hp)
  constructor
  · have H' : ∀ d : Dict, KeysSub d base.options →
        Optimizers.trial oracle (testPredicate runner tokenize) ⟨d, reach.args, base.cc⟩ =
            none ∨
          ∃ e, Optimizers.trial oracle (testPredicate runner tokenize)
              ⟨d, reach.args, base.cc⟩ = some e ∧ PyErr.isSubprocessError e = true :=
      fun d hd => Or.inr (H d hd)
    exact regressLoop_no_propagate H' reach.options base.options (keysSub_refl _) hitems
  · exact regressLoop_state_all_fail H reach.options base.options (keysSub_refl _)

/-- Witness for C8: one trial whose only command times out; the walk finishes
with nothing raised and the flag reverted. -/
theorem c8_timeout_is_predicate_failure_witness :
    (Optimizers.regress (fun _ _ => Except.ok ["-fa [enabled]"])
        (testPredicate (fun _ => some (PyErr.timeoutExpired ["timed out"])) (fun l => l))
        ⟨[("-fa", "[enabled]")], ["-O1"], "gcc"⟩
        ⟨[("-fa", "[disabled]")], ["-O2"], "gcc"⟩).1 = none ∧
      (Optimizers.regress (fun _ _ => Except.ok ["-fa [enabled]"])
        (testPredicate (fun _ => some (PyErr.timeoutExpired ["timed out"])) (fun l => l))
        ⟨[("-fa", "[enabled]")], ["-O1"], "gcc"⟩
        ⟨[("-fa", "[disabled]")], ["-O2"], "gcc"⟩).2.options = [("-fa", "[enabled]")] := by
  apply c8_timeout_is_predicate_failure
  · intro cc args
    exact Or.inl ⟨["-fa [enabled]"], rfl⟩
  · intro cc args lines h
    injection h with h
    subst h
    exact keysSub_of_same_keys (by decide)
  · exact keysSub_of_same_keys (by decide)
  · intro cmd
    exact ⟨["timed out"], rfl⟩

/-- C10: an exception from the predicate that is not a SubprocessError (such
as the `IndexError` for an empty command vector or the `OSError` for a
missing executable) propagates out of `regress`, and the tentative flag
change of the current trial is not reverted: with always-succeeding compiler
queries covering base's flags, reach's flags present in base, and the
predicate raising a fixed non-subprocess exception, `regress` returns that
exception with the working dict (which `base.options` aliases) still holding
the tentative value of the first differing flag. -/
theorem c10_nonsubprocess_propagates_unreverted (oracle : Oracle) (pred : Predicate)
    (base reach : Optimizers) (e₀ : PyErr) (k v : String)
    (hT : OracleTotal oracle) (hC : OracleCovers oracle base.options)
    (hP : ∀ argv, pred argv = some e₀) (he : PyErr.isSubprocessError e₀ = false)
    (hfd : firstDiff base.options reach.options = some (k, v)) :
    Optimizers.regress oracle pred base reach =
      (some e₀, ⟨Dict.insert base.options k v, reach.args, base.cc⟩) := by
  have H : ∀ d : Dict, KeysSub d base.options →
      Optimizers.trial oracle pred ⟨d, reach.args, base.cc⟩ = some e₀ :=
    trial_const_of hT hC hP
  have hloop := regressLoop_first_diff H he reach.options base.options (keysSub_refl _) hfd
  have h0 : Optimizers.regress oracle pred base reach =
      ((regressLoop oracle pred reach.args base.cc reach.options base.options).1,
       ⟨(regressLoop oracle pred reach.args base.cc reach.options base.options).2,
        reach.args, base.cc⟩) := rfl
  rw [h0, hloop]

/-- Witness for C10: the predicate's token stream ends in `;`, so an empty
command vector is executed and raises `IndexError`; `regress` propagates it
and the working set still holds the tentative `[disabled]`. -/
theorem c10_nonsubprocess_propagates_unreverted_witness :
    Optimizers.regress (fun _ _ => Except.ok ["-fa [enabled]"])
        (testPredicate (fun cmd => if cmd.isEmpty then some PyErr.indexError else none)
          (fun _ => ["true", ";"]))
        ⟨[("-fa", "[enabled]")], ["-O1"], "gcc"⟩
        ⟨[("-fa", "[disabled]")], ["-O2"], "gcc"⟩ =
      (some PyErr.indexError, ⟨[("-fa", "[disabled]")], ["-O2"], "gcc"⟩) := by
  have h := c10_nonsubprocess_propagates_unreverted (fun _ _ => Except.ok ["-fa [enabled]"])
    (testPredicate (fun cmd => if cmd.isEmpty then some PyErr.indexError else none)
      (fun _ => ["true", ";"]))
    ⟨[("-fa", "[enabled]")], ["-O1"], "gcc"⟩
    ⟨[("-fa", "[disabled]")], ["-O2"], "gcc"⟩
    PyErr.indexError "-fa" "[disabled]"
    (fun cc args => ⟨["-fa [enabled]"], rfl⟩)
    (by
      intro cc args lines hl
      injection hl with hl
      subst hl
      exact keysSub_of_same_keys (by decide))
    (fun argv => rfl) rfl (by decide)
  rw [h]
  decide
